import Mathlib

/-!
Verification of the Ethereum payload builder with inclusion-list (IL)
compliance, a shallow embedding of default_ethereum_payload from
crates/ethereum/payload/src/lib.rs.

Modelling notes.
* The EVM, the state database and the best-transactions iterator are
  external collaborators.  The mempool packing loop is therefore embedded
  as a fold over a trace of per-iteration observations (the yielded
  transaction, the cancellation poll, and the EVM response), and the IL
  pass over an EVM oracle, a function from the committed working state and
  a transaction to the EVM response.  The working state is an abstract
  type S; commits replace the state with the successor state reported by
  the EVM.
* Side-effecting calls on the iterator and the database (mark_invalid,
  skip_blobs, and state commits) are recorded as an event list, in call
  order.
* The base fee is fixed for the whole build, so the effective tip per gas
  of a transaction at that base fee is carried as a field of the
  transaction (the source computes tx.effective_tip_per_gas(base_fee) and
  unwraps it; execution succeeded, so the fee is valid).
* Receipts are modelled as one flat sequence.  The source pushes a bare
  Receipt in the mempool loop (line 332) and Some(Receipt) in the IL pass
  (line 436, together with a push to a vector executed_senders that is
  declared nowhere); these two pushes cannot both type-check against the
  same vector, a slip the specification itself flags as an open question.
  The embedding follows the evident intent: a single flat receipts vector.
-/

namespace RethPayload

/-- MAX_DATA_GAS_PER_BLOCK of alloy_eips::eip4844: the per-block cap on
blob data gas. -/
def MAX_DATA_GAS_PER_BLOCK : Nat := 786432

/-- A recovered signed transaction, restricted to the observations the
builder makes of it: type id, gas limit, whether it is an EIP-4844 blob
transaction, its blob gas, its effective tip per gas at the build's base
fee, and the recovered signer. -/
structure Tx where
  tx_type : Nat
  gas_limit : Nat
  is_eip4844 : Bool
  blob_gas : Nat
  effective_tip : Nat
  signer : Nat
deriving DecidableEq

/-- Receipt as assembled by the builder: transaction type, success flag,
cumulative gas used after this transaction, and the logs. -/
structure Receipt where
  tx_type : Nat
  success : Bool
  cumulative_gas_used : Nat
  logs : List Nat
deriving DecidableEq

/-- Transaction-level EVM errors distinguished by the builder.  All
variants of revm InvalidTransaction other than the three named ones are
collapsed into the catch-all. -/
inductive TxError where
  | NonceTooLow
  | NonceTooHigh
  | LackOfFundForMaxFee
  | other
deriving DecidableEq

/-- Response of one evm.transact call: success carries gas_used, the
is_success flag, the logs and the post-transaction state to commit;
txError is EVMError::Transaction; fatal is any non-transaction EVMError
(database error etc.). -/
inductive EvmResult (S : Type) where
  | success (gas_used : Nat) (is_success : Bool) (logs : List Nat) (state : S)
  | txError (e : TxError)
  | fatal
deriving DecidableEq

/-- Reasons passed to best_txs.mark_invalid in the source. -/
inductive InvalidPoolTransactionError where
  | ExceedsGasLimit (gas limit : Nat)
  | ConsensusTxTypeNotSupported
deriving DecidableEq

/-- Observable side effects of the build loop: iterator calls and state
commits, in call order. -/
inductive Event where
  | markInvalid (tx : Tx) (err : InvalidPoolTransactionError)
  | skipBlobs
  | commit (tx : Tx) (gas_used : Nat)
deriving DecidableEq

/-- The mutable accumulators of the build attempt: the committed working
state, cumulative_gas_used, sum_blob_gas_used, total_fees, the receipts
vector and the executed transactions of the block body. -/
structure PassState (S : Type) where
  state : S
  cumulative_gas_used : Nat
  sum_blob_gas_used : Nat
  total_fees : Nat
  receipts : List Receipt
  executed_txs : List Tx
deriving DecidableEq

/-- Accumulator state at loop entry (lines 192-203 of the source). -/
def initialState {S : Type} (s0 : S) : PassState S :=
  { state := s0, cumulative_gas_used := 0, sum_blob_gas_used := 0,
    total_fees := 0, receipts := [], executed_txs := [] }

/-- One iteration's observations in the mempool packing loop: the value of
the cancellation poll, the transaction yielded by the iterator, and the
EVM's response were the transaction submitted. -/
structure MempoolStep (S : Type) where
  cancelled : Bool
  tx : Tx
  evmResult : EvmResult S
deriving DecidableEq

/-- Result of one mempool loop iteration. -/
inductive StepOut (S : Type) where
  | next (st : PassState S) (events : List Event)
  | cancelled
  | fatal
deriving DecidableEq

/-- One iteration of the mempool packing loop (source lines 236-347):
gas-limit guard, cancellation poll, blob-data guard, EVM execution, and on
success the commit and the accumulator updates. -/
def mempoolStep {S : Type} (block_gas_limit : Nat) (st : PassState S)
    (s : MempoolStep S) : StepOut S :=
  let tx := s.tx
  -- ensure we still have capacity for this transaction
  if st.cumulative_gas_used + tx.gas_limit > block_gas_limit then
    .next st [.markInvalid tx (.ExceedsGasLimit tx.gas_limit block_gas_limit)]
  -- check if the job was cancelled, if so we can exit early
  else if s.cancelled then
    .cancelled
  -- limited blob space per block: check the EIP-4844 tx still fits
  else if tx.is_eip4844 && decide (st.sum_blob_gas_used + tx.blob_gas > MAX_DATA_GAS_PER_BLOCK) then
    .next st [.markInvalid tx (.ExceedsGasLimit tx.blob_gas MAX_DATA_GAS_PER_BLOCK)]
  else
    match s.evmResult with
    | .success gas_used ok logs s' =>
      -- commit changes, then update blob gas, cumulative gas, receipt,
      -- fees and the block body
      let sum_blob := if tx.is_eip4844 then st.sum_blob_gas_used + tx.blob_gas
                      else st.sum_blob_gas_used
      let skipEv : List Event :=
        if tx.is_eip4844 && decide (sum_blob = MAX_DATA_GAS_PER_BLOCK) then [.skipBlobs] else []
      let cum := st.cumulative_gas_used + gas_used
      .next
        { state := s',
          cumulative_gas_used := cum,
          sum_blob_gas_used := sum_blob,
          total_fees := st.total_fees + tx.effective_tip * gas_used,
          receipts := st.receipts ++
            [{ tx_type := tx.tx_type, success := ok, cumulative_gas_used := cum, logs := logs }],
          executed_txs := st.executed_txs ++ [tx] }
        (.commit tx gas_used :: skipEv)
    | .txError e =>
      if e = .NonceTooLow then
        -- nonce too low: skip this transaction only, no mark_invalid
        .next st []
      else
        -- skip the invalid transaction and its descendants
        .next st [.markInvalid tx .ConsensusTxTypeNotSupported]
    | .fatal => .fatal

/-- Outcome of the whole mempool packing loop, with the events emitted up
to the point the loop stopped. -/
inductive MpOutcome (S : Type) where
  | done (st : PassState S) (events : List Event)
  | cancelled (events : List Event)
  | fatal (events : List Event)
deriving DecidableEq

/-- The mempool packing loop: fold mempoolStep over the iteration trace. -/
def mempoolLoop {S : Type} (block_gas_limit : Nat) (st : PassState S) :
    List (MempoolStep S) → MpOutcome S
  | [] => .done st []
  | s :: rest =>
    match mempoolStep block_gas_limit st s with
    | .next st' ev =>
      match mempoolLoop block_gas_limit st' rest with
      | .done stf evr => .done stf (ev ++ evr)
      | .cancelled evr => .cancelled (ev ++ evr)
      | .fatal evr => .fatal (ev ++ evr)
    | .cancelled => .cancelled []
    | .fatal => .fatal []

/-- Accumulator update of a successful IL inclusion (source lines 430-449):
commit the post-state, add gas_used to cumulative_gas_used, push the
receipt, add the miner fee effective_tip times gas_used, and append the
transaction to the block body. -/
def ilApply {S : Type} (st : PassState S) (tx : Tx) (gas_used : Nat)
    (is_success : Bool) (logs : List Nat) (s' : S) : PassState S :=
  { state := s',
    cumulative_gas_used := st.cumulative_gas_used + gas_used,
    sum_blob_gas_used := st.sum_blob_gas_used,
    total_fees := st.total_fees + tx.effective_tip * gas_used,
    receipts := st.receipts ++
      [{ tx_type := tx.tx_type, success := is_success,
         cumulative_gas_used := st.cumulative_gas_used + gas_used, logs := logs }],
    executed_txs := st.executed_txs ++ [tx] }

/-- Number of true bits of the IL bitfield. -/
def trueCount (l : List Bool) : Nat := l.count true

/-!
Termination facts for the IL pass, stated as definitions because the
recursive definition of the pass refers to them in its termination
argument: clearing a true bitfield slot strictly decreases the number of
true bits, so the measure (n + 1) * trueCount + (n - i) decreases at
every iteration of the loop.
-/

def getD_true_lt_length : ∀ (l : List Bool) (i : Nat),
    l.getD i false = true → i < l.length := by
  intro l
  induction l with
  | nil => intro i h; simp [List.getD] at h
  | cons b t ih =>
    intro i h
    cases i with
    | zero => simp
    | succ j =>
      have := ih j (by simpa [List.getD] using h)
      simpa using Nat.succ_lt_succ this

def trueCount_set_false_lt : ∀ (l : List Bool) (i : Nat),
    l.getD i false = true → trueCount (l.set i false) < trueCount l := by
  intro l
  induction l with
  | nil => intro i h; simp [List.getD] at h
  | cons b t ih =>
    intro i h
    cases i with
    | zero =>
      have hb : b = true := by simpa [List.getD] using h
      subst hb
      simp [trueCount, List.count_cons]
    | succ j =>
      have hj : t.getD j false = true := by simpa [List.getD] using h
      have := ih j hj
      simp only [List.set]
      simp [trueCount, List.count_cons] at this ⊢
      omega

def meas_dec_set {il : List (Option Tx)} {bf : List Bool} {i : Nat}
    (hb : bf.getD i false = true) (j : Nat) :
    (il.length + 1) * trueCount (bf.set i false) + (il.length - j) <
      (il.length + 1) * trueCount bf + (il.length - i) := by
  have hc : trueCount (bf.set i false) < trueCount bf := trueCount_set_false_lt bf i hb
  have h1 : (il.length + 1) * trueCount (bf.set i false) + (il.length - j) <
      (il.length + 1) * trueCount (bf.set i false) + (il.length + 1) := by omega
  have h2 : (il.length + 1) * trueCount (bf.set i false) + (il.length + 1) =
      (il.length + 1) * (trueCount (bf.set i false) + 1) := by ring
  have h3 : (il.length + 1) * (trueCount (bf.set i false) + 1) ≤
      (il.length + 1) * trueCount bf := Nat.mul_le_mul_left _ hc
  calc (il.length + 1) * trueCount (bf.set i false) + (il.length - j)
      < (il.length + 1) * (trueCount (bf.set i false) + 1) := by omega
    _ ≤ (il.length + 1) * trueCount bf := h3
    _ ≤ (il.length + 1) * trueCount bf + (il.length - i) := Nat.le_add_right _ _

def meas_dec_adv {il : List (Option Tx)} {bf : List Bool} {i : Nat}
    (hi : i < il.length) :
    (il.length + 1) * trueCount bf + (il.length - (i + 1)) <
      (il.length + 1) * trueCount bf + (il.length - i) :=
  Nat.add_lt_add_left (by omega) _

/-- The inclusion-list fixed-point pass (source lines 375-459).  The EVM
oracle evm maps the committed working state and a transaction to the EVM
response.  Returns none on a non-transaction EVM error (the source returns
Err(EvmExecutionError)); the unreachable expect on an undecodable entry
whose bitfield slot is true is also modelled as an abort.  The third
component of the result lists the state commits performed, in order. -/
def ilLoop {S : Type} (evm : S → Tx → EvmResult S) (block_gas_limit : Nat)
    (il : List (Option Tx)) (bf : List Bool) (i : Nat) (st : PassState S) :
    Option (PassState S × List Bool × List Event) :=
  if hi : i < il.length then
    if hb : bf.getD i false = true then
      match il.getD i none with
      | none => none
      | some tx =>
        -- blob transactions are not permitted via the IL
        if tx.is_eip4844 then
          ilLoop evm block_gas_limit il (bf.set i false) (i + 1) st
        -- transaction gas limit too high
        else if st.cumulative_gas_used + tx.gas_limit > block_gas_limit then
          ilLoop evm block_gas_limit il (bf.set i false) (i + 1) st
        else
          match evm st.state tx with
          | .success gas_used ok logs s' =>
            -- successful execution: commit and accumulate, clear the
            -- slot, and restart the pass at index zero
            match ilLoop evm block_gas_limit il (bf.set i false) 0
                (ilApply st tx gas_used ok logs s') with
            | none => none
            | some (stf, bff, evs) => some (stf, bff, .commit tx gas_used :: evs)
          | .txError e =>
            if e = .NonceTooHigh ∨ e = .LackOfFundForMaxFee then
              -- transient: the entry may become valid later; keep the slot
              ilLoop evm block_gas_limit il bf (i + 1) st
            else
              -- permanent reject
              ilLoop evm block_gas_limit il (bf.set i false) (i + 1) st
          | .fatal => none
    else
      ilLoop evm block_gas_limit il bf (i + 1) st
  else
    some (st, bf, [])
termination_by (il.length + 1) * trueCount bf + (il.length - i)
decreasing_by
  all_goals first
    | exact meas_dec_set hb _
    | exact meas_dec_adv hi

/-- The IL pass as a plain iteration: the same loop body as ilLoop, but
recursing on an explicit iteration budget.  The outer none means the
budget was exhausted before the loop finished; some r is the loop's
result r (which is itself none on a fatal EVM error).  The agreement of
ilLoopFuel with ilLoop at a quadratic budget is the termination claim. -/
def ilLoopFuel {S : Type} (evm : S → Tx → EvmResult S) (block_gas_limit : Nat)
    (il : List (Option Tx)) :
    Nat → List Bool → Nat → PassState S →
    Option (Option (PassState S × List Bool × List Event))
  | 0, _, _, _ => none
  | fuel + 1, bf, i, st =>
    if i < il.length then
      if bf.getD i false = true then
        match il.getD i none with
        | none => some none
        | some tx =>
          if tx.is_eip4844 then
            ilLoopFuel evm block_gas_limit il fuel (bf.set i false) (i + 1) st
          else if st.cumulative_gas_used + tx.gas_limit > block_gas_limit then
            ilLoopFuel evm block_gas_limit il fuel (bf.set i false) (i + 1) st
          else
            match evm st.state tx with
            | .success gas_used ok logs s' =>
              match ilLoopFuel evm block_gas_limit il fuel (bf.set i false) 0
                  (ilApply st tx gas_used ok logs s') with
              | none => none
              | some none => some none
              | some (some (stf, bff, evs)) =>
                some (some (stf, bff, .commit tx gas_used :: evs))
            | .txError e =>
              if e = .NonceTooHigh ∨ e = .LackOfFundForMaxFee then
                ilLoopFuel evm block_gas_limit il fuel bf (i + 1) st
              else
                ilLoopFuel evm block_gas_limit il fuel (bf.set i false) (i + 1) st
            | .fatal => some none
      else
        ilLoopFuel evm block_gas_limit il fuel bf (i + 1) st
    else
      some (some (st, bf, []))

/-- Modelled from the spec: is_better_payload belongs to the
reth_basic_payload_builder crate, which is not among the sources.  Per the
specification's Revenue Gate section, the new attempt is better iff
total_fees is strictly greater than the best prior payload's fees, and an
attempt with no prior best payload is always better. -/
def is_better_payload (best_payload_fees : Option Nat) (total_fees : Nat) : Bool :=
  match best_payload_fees with
  | none => true
  | some fees => fees < total_fees

/-- The part of the sealed block determined by the build loops: the header
gas fields, the block body, the receipts, and the data finalization
consumes (committed state, fees).  Roots and hashes are functions of these
fields and the external state collaborators. -/
structure BuiltBlock (S : Type) where
  gas_used : Nat
  gas_limit : Nat
  blob_gas_used : Nat
  transactions : List Tx
  receipts : List Receipt
  state : S
  fees : Nat
deriving DecidableEq

/-- Header assembly on the better path (source lines 559-601):
gas_used = cumulative_gas_used, gas_limit = block_gas_limit,
blob_gas_used = sum_blob_gas_used, body transactions = executed_txs. -/
def sealBlock {S : Type} (block_gas_limit : Nat) (st : PassState S) : BuiltBlock S :=
  { gas_used := st.cumulative_gas_used,
    gas_limit := block_gas_limit,
    blob_gas_used := st.sum_blob_gas_used,
    transactions := st.executed_txs,
    receipts := st.receipts,
    state := st.state,
    fees := st.total_fees }

/-- The four outcomes of a build attempt. -/
inductive BuildOutcome (S : Type) where
  | Better (payload : BuiltBlock S) (cached_reads : Nat)
  | Aborted (fees : Nat) (cached_reads : Nat)
  | Cancelled
  | EvmExecutionError
deriving DecidableEq

/-- default_ethereum_payload: run the mempool packing loop from the empty
accumulators, apply the IL fixed-point pass (an absent IL is replaced by
the empty IL; the bitfield starts true exactly on the decodable slots),
then the revenue gate: abort with the fees and the cached-reads
accumulator unless strictly better, else seal the block.  s0 is the
working state after the pre-block system calls. -/
def default_ethereum_payload {S : Type} (block_gas_limit : Nat)
    (trace : List (MempoolStep S)) (evm : S → Tx → EvmResult S)
    (il : Option (List (Option Tx))) (s0 : S)
    (best_payload_fees : Option Nat) (cached_reads : Nat) : BuildOutcome S :=
  match mempoolLoop block_gas_limit (initialState s0) trace with
  | .cancelled _ => .Cancelled
  | .fatal _ => .EvmExecutionError
  | .done st _ =>
    let ilList := il.getD []
    let il_bitfield := ilList.map Option.isSome
    match ilLoop evm block_gas_limit ilList il_bitfield 0 st with
    | none => .EvmExecutionError
    | some (st', _, _) =>
      if is_better_payload best_payload_fees st'.total_fees then
        .Better (sealBlock block_gas_limit st') cached_reads
      else
        .Aborted st'.total_fees cached_reads

/-- The cumulative_gas_used column of a receipts sequence. -/
def cums (rs : List Receipt) : List Nat := rs.map (fun r => r.cumulative_gas_used)

/-- Running sums: scanSums c0 gs lists c0 + g1, c0 + g1 + g2, and so on. -/
def scanSums (c0 : Nat) : List Nat → List Nat
  | [] => []
  | g :: gs => (c0 + g) :: scanSums (c0 + g) gs

/-- The gas_used values of the state commits recorded in an event list, in
commit order: one per transaction added to the block. -/
def commitGas : List Event → List Nat
  | [] => []
  | .commit _ g :: es => g :: commitGas es
  | .markInvalid _ _ :: es => commitGas es
  | .skipBlobs :: es => commitGas es

/-- The packing capacity invariant: cumulative_gas_used within the block
gas limit and sum_blob_gas_used within MAX_DATA_GAS_PER_BLOCK. -/
def gasInv {S : Type} (block_gas_limit : Nat) (st : PassState S) : Prop :=
  st.cumulative_gas_used ≤ block_gas_limit ∧
    st.sum_blob_gas_used ≤ MAX_DATA_GAS_PER_BLOCK

/-- A mempool-iteration observation is gas-bounded when a successful EVM
response reports gas_used at most the transaction's gas limit. -/
def stepGasBounded {S : Type} (s : MempoolStep S) : Bool :=
  match s.evmResult with
  | .success g _ _ _ => decide (g ≤ s.tx.gas_limit)
  | _ => true

/-- A mempool-iteration observation is gas-positive when a successful EVM
response reports strictly positive gas_used (every real transaction pays
at least the intrinsic gas). -/
def stepGasPos {S : Type} (s : MempoolStep S) : Bool :=
  match s.evmResult with
  | .success g _ _ _ => decide (0 < g)
  | _ => true

/-- An EVM oracle is gas-bounded when every successful response reports
gas_used at most the transaction's gas limit. -/
def evmGasBounded {S : Type} (evm : S → Tx → EvmResult S) : Prop :=
  ∀ s tx g ok lg s', evm s tx = .success g ok lg s' → g ≤ tx.gas_limit

/-- An EVM oracle is gas-positive when every successful response reports
strictly positive gas_used. -/
def evmGasPos {S : Type} (evm : S → Tx → EvmResult S) : Prop :=
  ∀ s tx g ok lg s', evm s tx = .success g ok lg s' → 0 < g

/-- Concrete plain transaction used to evaluate the theorems. -/
def txW : Tx :=
  { tx_type := 2, gas_limit := 21000, is_eip4844 := false, blob_gas := 0,
    effective_tip := 5, signer := 1 }

/-- Concrete EIP-4844 blob transaction used to evaluate the theorems. -/
def txBlobW : Tx :=
  { tx_type := 3, gas_limit := 21000, is_eip4844 := true, blob_gas := 131072,
    effective_tip := 5, signer := 2 }

/-- Concrete transaction whose gas limit exceeds a 30M block gas limit. -/
def txBig : Tx :=
  { tx_type := 2, gas_limit := 31000000, is_eip4844 := false, blob_gas := 0,
    effective_tip := 1, signer := 3 }

/-- Concrete mempool iteration: cancellation is signalled while txBig, which
fails the gas-limit guard, is yielded. -/
def stepBig : MempoolStep Nat :=
  { cancelled := true, tx := txBig, evmResult := .txError .other }

/-- Concrete EVM oracle over state Nat: every transaction succeeds with
21000 gas and bumps the state. -/
def evmW : Nat → Tx → EvmResult Nat := fun s _ => .success 21000 true [] (s + 1)

/-- Concrete EVM oracle over state Nat that reports a transaction-level
error for every transaction. -/
def evmRejectW : Nat → Tx → EvmResult Nat := fun _ _ => .txError .other

/-- Concrete EVM oracle over state Nat that reports NonceTooHigh for every
transaction. -/
def evmTransientW : Nat → Tx → EvmResult Nat := fun _ _ => .txError .NonceTooHigh

/-- Concrete mempool iteration: txW yielded, not cancelled, and the EVM
reports a transaction-level error other than NonceTooLow. -/
def stepRejectW : MempoolStep Nat :=
  { cancelled := false, tx := txW, evmResult := .txError .other }

/-- Concrete mempool iteration: cancellation signalled while txW, which
passes the gas-limit guard, is yielded. -/
def stepCancelW : MempoolStep Nat :=
  { cancelled := true, tx := txW, evmResult := .txError .other }

/-- Concrete mempool iteration: txW yielded and executed successfully. -/
def stepOkW : MempoolStep Nat :=
  { cancelled := false, tx := txW, evmResult := .success 21000 true [] 1 }

theorem ilLoop_terminal {S : Type} (evm : S → Tx → EvmResult S) (limit : Nat)
    (il : List (Option Tx)) (bf : List Bool) (i : Nat) (st : PassState S)
    (h : ¬ i < il.length) :
    ilLoop evm limit il bf i st = some (st, bf, []) := by
  rw [ilLoop]
  simp [h]

theorem ilLoop_skip {S : Type} (evm : S → Tx → EvmResult S) (limit : Nat)
    (il : List (Option Tx)) (bf : List Bool) (i : Nat) (st : PassState S)
    (hb : bf.getD i false = false) :
    ilLoop evm limit il bf i st = ilLoop evm limit il bf (i + 1) st := by
  rw [ilLoop]
  by_cases hi : i < il.length
  · simp only [hb]
    simp [hi]
  · rw [ilLoop_terminal evm limit il bf (i + 1) st (by omega)]
    simp [hi]

theorem ilLoop_undecodable {S : Type} (evm : S → Tx → EvmResult S) (limit : Nat)
    (il : List (Option Tx)) (bf : List Bool) (i : Nat) (st : PassState S)
    (hi : i < il.length) (hb : bf.getD i false = true)
    (hil : il.getD i none = none) :
    ilLoop evm limit il bf i st = none := by
  rw [ilLoop]
  simp only [hb, hil]
  simp [hi]

theorem ilLoop_blob {S : Type} (evm : S → Tx → EvmResult S) (limit : Nat)
    (il : List (Option Tx)) (bf : List Bool) (i : Nat) (st : PassState S)
    (tx : Tx) (hi : i < il.length) (hb : bf.getD i false = true)
    (hil : il.getD i none = some tx) (h44 : tx.is_eip4844 = true) :
    ilLoop evm limit il bf i st = ilLoop evm limit il (bf.set i false) (i + 1) st := by
  rw [ilLoop]
  simp only [hb, hil, h44]
  simp [hi]

theorem ilLoop_gas_guard {S : Type} (evm : S → Tx → EvmResult S) (limit : Nat)
    (il : List (Option Tx)) (bf : List Bool) (i : Nat) (st : PassState S)
    (tx : Tx) (hi : i < il.length) (hb : bf.getD i false = true)
    (hil : il.getD i none = some tx) (h44 : tx.is_eip4844 = false)
    (hg : st.cumulative_gas_used + tx.gas_limit > limit) :
    ilLoop evm limit il bf i st = ilLoop evm limit il (bf.set i false) (i + 1) st := by
  rw [ilLoop]
  simp only [hb, hil, h44, hg]
  simp [hi]

theorem ilLoop_success {S : Type} (evm : S → Tx → EvmResult S) (limit : Nat)
    (il : List (Option Tx)) (bf : List Bool) (i : Nat) (st : PassState S)
    (tx : Tx) (g : Nat) (ok : Bool) (lg : List Nat) (s' : S)
    (hi : i < il.length) (hb : bf.getD i false = true)
    (hil : il.getD i none = some tx) (h44 : tx.is_eip4844 = false)
    (hg : ¬ st.cumulative_gas_used + tx.gas_limit > limit)
    (hev : evm st.state tx = .success g ok lg s') :
    ilLoop evm limit il bf i st =
      (ilLoop evm limit il (bf.set i false) 0 (ilApply st tx g ok lg s')).map
        (fun r => (r.1, r.2.1, Event.commit tx g :: r.2.2)) := by
  rw [ilLoop]
  simp only [hi, hb, hil, h44, hg, hev]
  simp only [dite_true, if_false, ite_false, Bool.false_eq_true, if_true]
  cases hrec : ilLoop evm limit il (bf.set i false) 0 (ilApply st tx g ok lg s') with
  | none => simp [hrec]
  | some r => simp [hrec]

theorem ilLoop_transient {S : Type} (evm : S → Tx → EvmResult S) (limit : Nat)
    (il : List (Option Tx)) (bf : List Bool) (i : Nat) (st : PassState S)
    (tx : Tx) (e : TxError)
    (hi : i < il.length) (hb : bf.getD i false = true)
    (hil : il.getD i none = some tx) (h44 : tx.is_eip4844 = false)
    (hg : ¬ st.cumulative_gas_used + tx.gas_limit > limit)
    (hev : evm st.state tx = .txError e)
    (htr : e = .NonceTooHigh ∨ e = .LackOfFundForMaxFee) :
    ilLoop evm limit il bf i st = ilLoop evm limit il bf (i + 1) st := by
  rw [ilLoop]
  simp only [hb, hil, h44, hg, hev, htr]
  simp [hi]

theorem ilLoop_permanent {S : Type} (evm : S → Tx → EvmResult S) (limit : Nat)
    (il : List (Option Tx)) (bf : List Bool) (i : Nat) (st : PassState S)
    (tx : Tx) (e : TxError)
    (hi : i < il.length) (hb : bf.getD i false = true)
    (hil : il.getD i none = some tx) (h44 : tx.is_eip4844 = false)
    (hg : ¬ st.cumulative_gas_used + tx.gas_limit > limit)
    (hev : evm st.state tx = .txError e)
    (htr : ¬ (e = .NonceTooHigh ∨ e = .LackOfFundForMaxFee)) :
    ilLoop evm limit il bf i st = ilLoop evm limit il (bf.set i false) (i + 1) st := by
  rw [ilLoop]
  simp only [hb, hil, h44, hg, hev, htr]
  simp [hi]

theorem ilLoop_fatal {S : Type} (evm : S → Tx → EvmResult S) (limit : Nat)
    (il : List (Option Tx)) (bf : List Bool) (i : Nat) (st : PassState S)
    (tx : Tx)
    (hi : i < il.length) (hb : bf.getD i false = true)
    (hil : il.getD i none = some tx) (h44 : tx.is_eip4844 = false)
    (hg : ¬ st.cumulative_gas_used + tx.gas_limit > limit)
    (hev : evm st.state tx = .fatal) :
    ilLoop evm limit il bf i st = none := by
  rw [ilLoop]
  simp only [hb, hil, h44, hg, hev]
  simp [hi]

theorem ilLoopFuel_eq_ilLoop {S : Type} (evm : S → Tx → EvmResult S) (limit : Nat)
    (il : List (Option Tx)) :
    ∀ (fuel : Nat) (bf : List Bool) (i : Nat) (st : PassState S),
      (il.length + 1) * trueCount bf + (il.length - i) < fuel →
      ilLoopFuel evm limit il fuel bf i st = some (ilLoop evm limit il bf i st) := by
  intro fuel
  induction fuel with
  | zero => intro bf i st h; exact absurd h (Nat.not_lt_zero _)
  | succ fuel ih =>
    intro bf i st h
    have hle : (il.length + 1) * trueCount bf + (il.length - i) ≤ fuel :=
      Nat.lt_succ_iff.mp h
    by_cases hi : i < il.length
    · by_cases hb : bf.getD i false = true
      · cases hil : il.getD i none with
        | none =>
          rw [ilLoop_undecodable evm limit il bf i st hi hb hil]
          simp only [ilLoopFuel, hi, hb, hil]
          simp
        | some tx =>
          have hset : ∀ j, (il.length + 1) * trueCount (bf.set i false) + (il.length - j) < fuel :=
            fun j => lt_of_lt_of_le (meas_dec_set hb j) hle
          have hadv : (il.length + 1) * trueCount bf + (il.length - (i + 1)) < fuel :=
            lt_of_lt_of_le (meas_dec_adv hi) hle
          by_cases h44 : tx.is_eip4844 = true
          · rw [ilLoop_blob evm limit il bf i st tx hi hb hil h44, ← ih _ _ _ (hset (i + 1))]
            simp only [ilLoopFuel, hi, hb, hil, h44]
            simp
          · have h44' : tx.is_eip4844 = false := by
              revert h44; cases tx.is_eip4844 <;> simp
            by_cases hg : st.cumulative_gas_used + tx.gas_limit > limit
            · rw [ilLoop_gas_guard evm limit il bf i st tx hi hb hil h44' hg,
                ← ih _ _ _ (hset (i + 1))]
              simp only [ilLoopFuel, hi, hb, hil, h44', hg]
              simp
            · cases hev : evm st.state tx with
              | success g ok lg s' =>
                rw [ilLoop_success evm limit il bf i st tx g ok lg s' hi hb hil h44' hg hev]
                have hrec := ih (bf.set i false) 0 (ilApply st tx g ok lg s') (hset 0)
                simp only [ilLoopFuel, hi, hb, hil, h44', hg, hev]
                rw [hrec]
                cases hr : ilLoop evm limit il (bf.set i false) 0 (ilApply st tx g ok lg s') with
                | none => simp [hg]
                | some r =>
                  obtain ⟨stf, bff, evs⟩ := r
                  simp [hg]
              | txError e =>
                by_cases htr : e = .NonceTooHigh ∨ e = .LackOfFundForMaxFee
                · rw [ilLoop_transient evm limit il bf i st tx e hi hb hil h44' hg hev htr,
                    ← ih bf (i + 1) st hadv]
                  simp only [ilLoopFuel, hi, hb, hil, h44', hg, hev, htr]
                  simp
                · rw [ilLoop_permanent evm limit il bf i st tx e hi hb hil h44' hg hev htr,
                    ← ih _ _ _ (hset (i + 1))]
                  simp only [ilLoopFuel, hi, hb, hil, h44', hg, hev, htr]
                  simp
              | fatal =>
                rw [ilLoop_fatal evm limit il bf i st tx hi hb hil h44' hg hev]
                simp only [ilLoopFuel, hi, hb, hil, h44', hg, hev]
                simp
      · have hb' : bf.getD i false = false := by
          revert hb; cases bf.getD i false <;> simp
        rw [ilLoop_skip evm limit il bf i st hb',
          ← ih bf (i + 1) st (lt_of_lt_of_le (meas_dec_adv hi) hle)]
        simp only [ilLoopFuel, hi, hb']
        simp
    · rw [ilLoop_terminal evm limit il bf i st hi]
      simp only [ilLoopFuel, hi]
      simp

theorem scanSums_append (c0 : Nat) (xs ys : List Nat) :
    scanSums c0 (xs ++ ys) = scanSums c0 xs ++ scanSums (c0 + xs.sum) ys := by
  induction xs generalizing c0 with
  | nil => simp [scanSums]
  | cons g gs ih =>
    simp only [List.cons_append, scanSums, List.append_eq, List.sum_cons]
    rw [ih (c0 + g), show c0 + (g + gs.sum) = c0 + g + gs.sum by omega]

theorem commitGas_append (a b : List Event) :
    commitGas (a ++ b) = commitGas a ++ commitGas b := by
  induction a with
  | nil => rfl
  | cons e es ih =>
    cases e <;> simp [commitGas, ih]

theorem chain_lt_scanSums (gs : List Nat) :
    ∀ c0, (∀ g ∈ gs, 0 < g) → List.Chain' (· < ·) (c0 :: scanSums c0 gs) := by
  induction gs with
  | nil => intro c0 _; simp [scanSums]
  | cons g gs ih =>
    intro c0 hpos
    have h1 : 0 < g := hpos g (by simp)
    have h2 := ih (c0 + g) (fun x hx => hpos x (by simp [hx]))
    simp only [scanSums]
    exact List.Chain'.cons (by omega) h2

theorem chain_lt_scanSums_tail (c0 : Nat) (gs : List Nat)
    (hpos : ∀ g ∈ gs, 0 < g) : List.Chain' (· < ·) (scanSums c0 gs) :=
  (chain_lt_scanSums gs c0 hpos).tail

theorem commitGas_ite_skip (c : Prop) [Decidable c] :
    commitGas (if c then [Event.skipBlobs] else []) = [] := by
  split <;> rfl

theorem mempoolStep_gas_reject {S : Type} {limit : Nat} {st : PassState S}
    {s : MempoolStep S} (h1 : st.cumulative_gas_used + s.tx.gas_limit > limit) :
    mempoolStep limit st s =
      .next st [.markInvalid s.tx (.ExceedsGasLimit s.tx.gas_limit limit)] := by
  simp only [mempoolStep]
  rw [if_pos h1]

theorem mempoolStep_cancel {S : Type} {limit : Nat} {st : PassState S}
    {s : MempoolStep S} (h1 : ¬ st.cumulative_gas_used + s.tx.gas_limit > limit)
    (h2 : s.cancelled = true) :
    mempoolStep limit st s = .cancelled := by
  simp only [mempoolStep]
  rw [if_neg h1, if_pos h2]

theorem mempoolStep_blob_reject {S : Type} {limit : Nat} {st : PassState S}
    {s : MempoolStep S} (h1 : ¬ st.cumulative_gas_used + s.tx.gas_limit > limit)
    (h2 : s.cancelled = false)
    (h3 : s.tx.is_eip4844 = true)
    (h4 : st.sum_blob_gas_used + s.tx.blob_gas > MAX_DATA_GAS_PER_BLOCK) :
    mempoolStep limit st s =
      .next st [.markInvalid s.tx (.ExceedsGasLimit s.tx.blob_gas MAX_DATA_GAS_PER_BLOCK)] := by
  simp only [mempoolStep]
  rw [if_neg h1, if_neg (by simp [h2]), if_pos (by simp [h3, h4])]

theorem mempoolStep_success {S : Type} {limit : Nat} {st : PassState S}
    {s : MempoolStep S} {g : Nat} {ok : Bool} {lg : List Nat} {s' : S}
    (h1 : ¬ st.cumulative_gas_used + s.tx.gas_limit > limit)
    (h2 : s.cancelled = false)
    (h3 : (s.tx.is_eip4844 &&
      decide (st.sum_blob_gas_used + s.tx.blob_gas > MAX_DATA_GAS_PER_BLOCK)) = false)
    (hev : s.evmResult = .success g ok lg s') :
    mempoolStep limit st s =
      .next
        { state := s',
          cumulative_gas_used := st.cumulative_gas_used + g,
          sum_blob_gas_used :=
            if s.tx.is_eip4844 then st.sum_blob_gas_used + s.tx.blob_gas
            else st.sum_blob_gas_used,
          total_fees := st.total_fees + s.tx.effective_tip * g,
          receipts := st.receipts ++
            [{ tx_type := s.tx.tx_type, success := ok,
               cumulative_gas_used := st.cumulative_gas_used + g, logs := lg }],
          executed_txs := st.executed_txs ++ [s.tx] }
        (.commit s.tx g ::
          (if (s.tx.is_eip4844 &&
              decide ((if s.tx.is_eip4844 then st.sum_blob_gas_used + s.tx.blob_gas
                       else st.sum_blob_gas_used) = MAX_DATA_GAS_PER_BLOCK)) = true
           then [.skipBlobs] else [])) := by
  simp only [mempoolStep]
  rw [if_neg h1, if_neg (by simp [h2]), if_neg (by simp [h3]), hev]

theorem mempoolStep_nonce_too_low {S : Type} {limit : Nat} {st : PassState S}
    {s : MempoolStep S}
    (h1 : ¬ st.cumulative_gas_used + s.tx.gas_limit > limit)
    (h2 : s.cancelled = false)
    (h3 : (s.tx.is_eip4844 &&
      decide (st.sum_blob_gas_used + s.tx.blob_gas > MAX_DATA_GAS_PER_BLOCK)) = false)
    (hev : s.evmResult = .txError .NonceTooLow) :
    mempoolStep limit st s = .next st [] := by
  simp only [mempoolStep]
  rw [if_neg h1, if_neg (by simp [h2]), if_neg (by simp [h3]), hev]
  simp

theorem mempoolStep_invalid {S : Type} {limit : Nat} {st : PassState S}
    {s : MempoolStep S} {e : TxError}
    (h1 : ¬ st.cumulative_gas_used + s.tx.gas_limit > limit)
    (h2 : s.cancelled = false)
    (h3 : (s.tx.is_eip4844 &&
      decide (st.sum_blob_gas_used + s.tx.blob_gas > MAX_DATA_GAS_PER_BLOCK)) = false)
    (hev : s.evmResult = .txError e) (hne : e ≠ .NonceTooLow) :
    mempoolStep limit st s = .next st [.markInvalid s.tx .ConsensusTxTypeNotSupported] := by
  simp only [mempoolStep]
  rw [if_neg h1, if_neg (by simp [h2]), if_neg (by simp [h3]), hev]
  simp [hne]

theorem mempoolStep_evm_fatal {S : Type} {limit : Nat} {st : PassState S}
    {s : MempoolStep S}
    (h1 : ¬ st.cumulative_gas_used + s.tx.gas_limit > limit)
    (h2 : s.cancelled = false)
    (h3 : (s.tx.is_eip4844 &&
      decide (st.sum_blob_gas_used + s.tx.blob_gas > MAX_DATA_GAS_PER_BLOCK)) = false)
    (hev : s.evmResult = .fatal) :
    mempoolStep limit st s = .fatal := by
  simp only [mempoolStep]
  rw [if_neg h1, if_neg (by simp [h2]), if_neg (by simp [h3]), hev]

theorem mempoolStep_next_spec {S : Type} {limit : Nat} {st st' : PassState S}
    {s : MempoolStep S} {ev : List Event}
    (h : mempoolStep limit st s = .next st' ev) :
    cums st'.receipts = cums st.receipts ++ scanSums st.cumulative_gas_used (commitGas ev) ∧
    st'.cumulative_gas_used = st.cumulative_gas_used + (commitGas ev).sum ∧
    (∃ l, st'.receipts = st.receipts ++ l) ∧
    (∃ l, st'.executed_txs = st.executed_txs ++ l) ∧
    (commitGas ev = [] → st' = st) := by
  by_cases h1 : st.cumulative_gas_used + s.tx.gas_limit > limit
  · rw [mempoolStep_gas_reject h1] at h
    cases h
    exact ⟨by simp [scanSums, commitGas], by simp [commitGas],
      ⟨[], by simp⟩, ⟨[], by simp⟩, fun _ => rfl⟩
  · cases h2 : s.cancelled with
    | true => rw [mempoolStep_cancel h1 h2] at h; cases h
    | false =>
      cases h3 : (s.tx.is_eip4844 &&
          decide (st.sum_blob_gas_used + s.tx.blob_gas > MAX_DATA_GAS_PER_BLOCK)) with
      | true =>
        obtain ⟨ha, hb⟩ := Bool.and_eq_true_iff.mp h3
        rw [mempoolStep_blob_reject h1 h2 ha (of_decide_eq_true hb)] at h
        cases h
        exact ⟨by simp [scanSums, commitGas], by simp [commitGas],
          ⟨[], by simp⟩, ⟨[], by simp⟩, fun _ => rfl⟩
      | false =>
        cases hev : s.evmResult with
        | success g ok lg s2 =>
          rw [mempoolStep_success h1 h2 h3 hev] at h
          cases h
          refine ⟨?_, ?_, ⟨_, rfl⟩, ⟨_, rfl⟩, ?_⟩
          · simp [cums, scanSums, commitGas, commitGas_ite_skip]
          · simp [commitGas, commitGas_ite_skip]
          · intro hc; simp [commitGas] at hc
        | txError e =>
          by_cases hne : e = .NonceTooLow
          · subst hne
            rw [mempoolStep_nonce_too_low h1 h2 h3 hev] at h
            cases h
            exact ⟨by simp [scanSums, commitGas], by simp [commitGas],
              ⟨[], by simp⟩, ⟨[], by simp⟩, fun _ => rfl⟩
          · rw [mempoolStep_invalid h1 h2 h3 hev hne] at h
            cases h
            exact ⟨by simp [scanSums, commitGas], by simp [commitGas],
              ⟨[], by simp⟩, ⟨[], by simp⟩, fun _ => rfl⟩
        | fatal => rw [mempoolStep_evm_fatal h1 h2 h3 hev] at h; cases h

theorem mempoolStep_next_gasInv {S : Type} {limit : Nat} {st st' : PassState S}
    {s : MempoolStep S} {ev : List Event}
    (hgb : stepGasBounded s = true) (hinv : gasInv limit st)
    (h : mempoolStep limit st s = .next st' ev) : gasInv limit st' := by
  by_cases h1 : st.cumulative_gas_used + s.tx.gas_limit > limit
  · rw [mempoolStep_gas_reject h1] at h; cases h; exact hinv
  · cases h2 : s.cancelled with
    | true => rw [mempoolStep_cancel h1 h2] at h; cases h
    | false =>
      cases h3 : (s.tx.is_eip4844 &&
          decide (st.sum_blob_gas_used + s.tx.blob_gas > MAX_DATA_GAS_PER_BLOCK)) with
      | true =>
        obtain ⟨ha, hb⟩ := Bool.and_eq_true_iff.mp h3
        rw [mempoolStep_blob_reject h1 h2 ha (of_decide_eq_true hb)] at h
        cases h; exact hinv
      | false =>
        cases hev : s.evmResult with
        | success g ok lg s2 =>
          have hg : g ≤ s.tx.gas_limit := by
            unfold stepGasBounded at hgb
            rw [hev] at hgb
            exact of_decide_eq_true hgb
          rw [mempoolStep_success h1 h2 h3 hev] at h
          cases h
          constructor
          · simp only []
            omega
          · simp only []
            cases h4 : s.tx.is_eip4844 with
            | false => simpa [h4] using hinv.2
            | true =>
              rw [h4] at h3
              simp only [Bool.true_and, decide_eq_false_iff_not] at h3
              simp [h4]
              omega
        | txError e =>
          by_cases hne : e = .NonceTooLow
          · subst hne
            rw [mempoolStep_nonce_too_low h1 h2 h3 hev] at h
            cases h; exact hinv
          · rw [mempoolStep_invalid h1 h2 h3 hev hne] at h
            cases h; exact hinv
        | fatal => rw [mempoolStep_evm_fatal h1 h2 h3 hev] at h; cases h

theorem mempoolStep_next_pos {S : Type} {limit : Nat} {st st' : PassState S}
    {s : MempoolStep S} {ev : List Event}
    (hgp : stepGasPos s = true)
    (h : mempoolStep limit st s = .next st' ev) :
    ∀ g ∈ commitGas ev, 0 < g := by
  by_cases h1 : st.cumulative_gas_used + s.tx.gas_limit > limit
  · rw [mempoolStep_gas_reject h1] at h; cases h; simp [commitGas]
  · cases h2 : s.cancelled with
    | true => rw [mempoolStep_cancel h1 h2] at h; cases h
    | false =>
      cases h3 : (s.tx.is_eip4844 &&
          decide (st.sum_blob_gas_used + s.tx.blob_gas > MAX_DATA_GAS_PER_BLOCK)) with
      | true =>
        obtain ⟨ha, hb⟩ := Bool.and_eq_true_iff.mp h3
        rw [mempoolStep_blob_reject h1 h2 ha (of_decide_eq_true hb)] at h
        cases h; simp [commitGas]
      | false =>
        cases hev : s.evmResult with
        | success g ok lg s2 =>
          have hg : 0 < g := by
            unfold stepGasPos at hgp
            rw [hev] at hgp
            exact of_decide_eq_true hgp
          rw [mempoolStep_success h1 h2 h3 hev] at h
          cases h
          intro x hx
          simp [commitGas, commitGas_ite_skip] at hx
          omega
        | txError e =>
          by_cases hne : e = .NonceTooLow
          · subst hne
            rw [mempoolStep_nonce_too_low h1 h2 h3 hev] at h
            cases h; simp [commitGas]
          · rw [mempoolStep_invalid h1 h2 h3 hev hne] at h
            cases h; simp [commitGas]
        | fatal => rw [mempoolStep_evm_fatal h1 h2 h3 hev] at h; cases h

theorem mempoolLoop_done_spec {S : Type} {limit : Nat} :
    ∀ (trace : List (MempoolStep S)) (st st' : PassState S) (ev : List Event),
    mempoolLoop limit st trace = .done st' ev →
    cums st'.receipts = cums st.receipts ++ scanSums st.cumulative_gas_used (commitGas ev) ∧
    st'.cumulative_gas_used = st.cumulative_gas_used + (commitGas ev).sum ∧
    (∃ l, st'.receipts = st.receipts ++ l) ∧
    (∃ l, st'.executed_txs = st.executed_txs ++ l) ∧
    (commitGas ev = [] → st' = st) := by
  intro trace
  induction trace with
  | nil =>
    intro st st' ev h
    simp only [mempoolLoop] at h
    cases h
    exact ⟨by simp [scanSums, commitGas], by simp [commitGas],
      ⟨[], by simp⟩, ⟨[], by simp⟩, fun _ => rfl⟩
  | cons s rest ih =>
    intro st st' ev h
    simp only [mempoolLoop] at h
    cases hstep : mempoolStep limit st s with
    | next st1 ev1 =>
      simp only [hstep] at h
      cases hloop : mempoolLoop limit st1 rest with
      | done stf evr =>
        simp only [hloop] at h
        cases h
        obtain ⟨a1, a2, a3, a4, a5⟩ := mempoolStep_next_spec hstep
        obtain ⟨b1, b2, b3, b4, b5⟩ := ih st1 st' evr hloop
        refine ⟨?_, ?_, ?_, ?_, ?_⟩
        · rw [b1, a1, commitGas_append, scanSums_append, a2, List.append_assoc]
        · rw [b2, a2, commitGas_append, List.sum_append]
          omega
        · obtain ⟨l1, e1⟩ := a3
          obtain ⟨l2, e2⟩ := b3
          exact ⟨l1 ++ l2, by rw [e2, e1, List.append_assoc]⟩
        · obtain ⟨l1, e1⟩ := a4
          obtain ⟨l2, e2⟩ := b4
          exact ⟨l1 ++ l2, by rw [e2, e1, List.append_assoc]⟩
        · intro hc
          rw [commitGas_append] at hc
          obtain ⟨hc1, hc2⟩ := List.append_eq_nil.mp hc
          rw [b5 hc2, a5 hc1]
      | cancelled evr => simp only [hloop] at h; cases h
      | fatal evr => simp only [hloop] at h; cases h
    | cancelled => simp only [hstep] at h; cases h
    | fatal => simp only [hstep] at h; cases h

theorem mempoolLoop_done_gasInv {S : Type} {limit : Nat} :
    ∀ (trace : List (MempoolStep S)) (st st' : PassState S) (ev : List Event),
    (∀ s ∈ trace, stepGasBounded s = true) → gasInv limit st →
    mempoolLoop limit st trace = .done st' ev → gasInv limit st' := by
  intro trace
  induction trace with
  | nil =>
    intro st st' ev _ hinv h
    simp only [mempoolLoop] at h
    cases h
    exact hinv
  | cons s rest ih =>
    intro st st' ev hall hinv h
    simp only [mempoolLoop] at h
    cases hstep : mempoolStep limit st s with
    | next st1 ev1 =>
      simp only [hstep] at h
      cases hloop : mempoolLoop limit st1 rest with
      | done stf evr =>
        simp only [hloop] at h
        cases h
        exact ih st1 st' evr (fun x hx => hall x (by simp [hx]))
          (mempoolStep_next_gasInv (hall s (by simp)) hinv hstep) hloop
      | cancelled evr => simp only [hloop] at h; cases h
      | fatal evr => simp only [hloop] at h; cases h
    | cancelled => simp only [hstep] at h; cases h
    | fatal => simp only [hstep] at h; cases h

theorem mempoolLoop_done_pos {S : Type} {limit : Nat} :
    ∀ (trace : List (MempoolStep S)) (st st' : PassState S) (ev : List Event),
    (∀ s ∈ trace, stepGasPos s = true) →
    mempoolLoop limit st trace = .done st' ev →
    ∀ g ∈ commitGas ev, 0 < g := by
  intro trace
  induction trace with
  | nil =>
    intro st st' ev _ h
    simp only [mempoolLoop] at h
    cases h
    simp [commitGas]
  | cons s rest ih =>
    intro st st' ev hall h
    simp only [mempoolLoop] at h
    cases hstep : mempoolStep limit st s with
    | next st1 ev1 =>
      simp only [hstep] at h
      cases hloop : mempoolLoop limit st1 rest with
      | done stf evr =>
        simp only [hloop] at h
        cases h
        intro g hg
        rw [commitGas_append, List.mem_append] at hg
        cases hg with
        | inl hg => exact mempoolStep_next_pos (hall s (by simp)) hstep g hg
        | inr hg => exact ih st1 st' evr (fun x hx => hall x (by simp [hx])) hloop g hg
      | cancelled evr => simp only [hloop] at h; cases h
      | fatal evr => simp only [hloop] at h; cases h
    | cancelled => simp only [hstep] at h; cases h
    | fatal => simp only [hstep] at h; cases h

theorem getD_set_false : ∀ (l : List Bool) (i j : Nat),
    (l.set i false).getD j false = true → l.getD j false = true := by
  intro l
  induction l with
  | nil => intro i j h; simp at h
  | cons b t ih =>
    intro i j h
    cases i with
    | zero =>
      cases j with
      | zero => simp [List.getD_cons_zero] at h
      | succ j2 => simpa [List.getD_cons_succ] using h
    | succ i2 =>
      cases j with
      | zero => simpa [List.getD_cons_zero] using h
      | succ j2 => exact ih i2 j2 (by simpa [List.getD_cons_succ] using h)

theorem ilLoop_some_spec {S : Type} (evm : S → Tx → EvmResult S) (limit : Nat)
    (il : List (Option Tx)) :
    ∀ (bf : List Bool) (i : Nat) (st : PassState S),
    ∀ st' bf' ev, ilLoop evm limit il bf i st = some (st', bf', ev) →
    cums st'.receipts = cums st.receipts ++ scanSums st.cumulative_gas_used (commitGas ev) ∧
    st'.cumulative_gas_used = st.cumulative_gas_used + (commitGas ev).sum ∧
    st'.sum_blob_gas_used = st.sum_blob_gas_used ∧
    (∃ l, st'.receipts = st.receipts ++ l) ∧
    (∃ l, st'.executed_txs = st.executed_txs ++ l) ∧
    (commitGas ev = [] → st' = st) ∧
    (∀ j, bf'.getD j false = true → bf.getD j false = true) := by
  refine ilLoop.induct evm limit il
    (fun bf i st => ∀ st' bf' ev, ilLoop evm limit il bf i st = some (st', bf', ev) →
      cums st'.receipts = cums st.receipts ++ scanSums st.cumulative_gas_used (commitGas ev) ∧
      st'.cumulative_gas_used = st.cumulative_gas_used + (commitGas ev).sum ∧
      st'.sum_blob_gas_used = st.sum_blob_gas_used ∧
      (∃ l, st'.receipts = st.receipts ++ l) ∧
      (∃ l, st'.executed_txs = st.executed_txs ++ l) ∧
      (commitGas ev = [] → st' = st) ∧
      (∀ j, bf'.getD j false = true → bf.getD j false = true))
    ?_ ?_ ?_ ?_ ?_ ?_ ?_ ?_ ?_ ?_
  · intro bf i st hi hb hil st' bf' ev h
    rw [ilLoop_undecodable evm limit il bf i st hi hb hil] at h
    exact Option.noConfusion h
  · intro bf i st hi hb tx hil h44 ih st' bf' ev h
    rw [ilLoop_blob evm limit il bf i st tx hi hb hil h44] at h
    obtain ⟨c1, c2, c3, c4, c5, c6, c7⟩ := ih st' bf' ev h
    exact ⟨c1, c2, c3, c4, c5, c6, fun j hj => getD_set_false bf i j (c7 j hj)⟩
  · intro bf i st hi hb tx hil h44 hg ih st' bf' ev h
    rw [ilLoop_gas_guard evm limit il bf i st tx hi hb hil (by simpa using h44) hg] at h
    obtain ⟨c1, c2, c3, c4, c5, c6, c7⟩ := ih st' bf' ev h
    exact ⟨c1, c2, c3, c4, c5, c6, fun j hj => getD_set_false bf i j (c7 j hj)⟩
  · intro bf i st hi hb tx hil h44 hg g ok lg s' hev hrec ih st' bf' ev h
    rw [ilLoop_success evm limit il bf i st tx g ok lg s' hi hb hil
      (by simpa using h44) hg hev, hrec] at h
    exact Option.noConfusion h
  · intro bf i st hi hb tx hil h44 hg g ok lg s' hev stf bff evs hrec ih st' bf' ev h
    rw [ilLoop_success evm limit il bf i st tx g ok lg s' hi hb hil
      (by simpa using h44) hg hev, hrec] at h
    simp only [Option.map_some'] at h
    cases h
    obtain ⟨c1, c2, c3, c4, c5, c6, c7⟩ := ih stf bff evs hrec
    refine ⟨?_, ?_, ?_, ?_, ?_, ?_, ?_⟩
    · rw [c1]
      simp [ilApply, cums, commitGas, scanSums]
    · rw [c2]
      simp [ilApply, commitGas]
      omega
    · rw [c3]
      simp [ilApply]
    · obtain ⟨l, e⟩ := c4
      refine ⟨Receipt.mk tx.tx_type ok (st.cumulative_gas_used + g) lg :: l, ?_⟩
      rw [e]
      simp [ilApply]
    · obtain ⟨l, e⟩ := c5
      refine ⟨tx :: l, ?_⟩
      rw [e]
      simp [ilApply]
    · intro hc
      simp [commitGas] at hc
    · exact fun j hj => getD_set_false bf i j (c7 j hj)
  · intro bf i st hi hb tx hil h44 hg e hev htr ih st' bf' ev h
    rw [ilLoop_transient evm limit il bf i st tx e hi hb hil
      (by simpa using h44) hg hev htr] at h
    exact ih st' bf' ev h
  · intro bf i st hi hb tx hil h44 hg e hev htr ih st' bf' ev h
    rw [ilLoop_permanent evm limit il bf i st tx e hi hb hil
      (by simpa using h44) hg hev htr] at h
    obtain ⟨c1, c2, c3, c4, c5, c6, c7⟩ := ih st' bf' ev h
    exact ⟨c1, c2, c3, c4, c5, c6, fun j hj => getD_set_false bf i j (c7 j hj)⟩
  · intro bf i st hi hb tx hil h44 hg hev st' bf' ev h
    rw [ilLoop_fatal evm limit il bf i st tx hi hb hil
      (by simpa using h44) hg hev] at h
    exact Option.noConfusion h
  · intro bf i st hi hb ih st' bf' ev h
    rw [ilLoop_skip evm limit il bf i st (by simpa using hb)] at h
    exact ih st' bf' ev h
  · intro bf i st hi st' bf' ev h
    rw [ilLoop_terminal evm limit il bf i st hi] at h
    cases h
    exact ⟨by simp [scanSums, commitGas], by simp [commitGas], rfl,
      ⟨[], by simp⟩, ⟨[], by simp⟩, fun _ => rfl, fun j hj => hj⟩

theorem ilLoop_some_gasInv {S : Type} (evm : S → Tx → EvmResult S) (limit : Nat)
    (il : List (Option Tx)) (hevm : evmGasBounded evm) :
    ∀ (bf : List Bool) (i : Nat) (st : PassState S),
    ∀ st' bf' ev, ilLoop evm limit il bf i st = some (st', bf', ev) →
      gasInv limit st → gasInv limit st' := by
  refine ilLoop.induct evm limit il
    (fun bf i st => ∀ st' bf' ev, ilLoop evm limit il bf i st = some (st', bf', ev) →
      gasInv limit st → gasInv limit st')
    ?_ ?_ ?_ ?_ ?_ ?_ ?_ ?_ ?_ ?_
  · intro bf i st hi hb hil st' bf' ev h _
    rw [ilLoop_undecodable evm limit il bf i st hi hb hil] at h
    exact Option.noConfusion h
  · intro bf i st hi hb tx hil h44 ih st' bf' ev h hinv
    rw [ilLoop_blob evm limit il bf i st tx hi hb hil h44] at h
    exact ih st' bf' ev h hinv
  · intro bf i st hi hb tx hil h44 hg ih st' bf' ev h hinv
    rw [ilLoop_gas_guard evm limit il bf i st tx hi hb hil (by simpa using h44) hg] at h
    exact ih st' bf' ev h hinv
  · intro bf i st hi hb tx hil h44 hg g ok lg s' hev hrec ih st' bf' ev h _
    rw [ilLoop_success evm limit il bf i st tx g ok lg s' hi hb hil
      (by simpa using h44) hg hev, hrec] at h
    exact Option.noConfusion h
  · intro bf i st hi hb tx hil h44 hg g ok lg s' hev stf bff evs hrec ih st' bf' ev h hinv
    rw [ilLoop_success evm limit il bf i st tx g ok lg s' hi hb hil
      (by simpa using h44) hg hev, hrec] at h
    simp only [Option.map_some'] at h
    cases h
    refine ih stf bff evs hrec ⟨?_, ?_⟩
    · have := hevm st.state tx g ok lg s' hev
      simp only [ilApply]
      omega
    · simpa [ilApply] using hinv.2
  · intro bf i st hi hb tx hil h44 hg e hev htr ih st' bf' ev h hinv
    rw [ilLoop_transient evm limit il bf i st tx e hi hb hil
      (by simpa using h44) hg hev htr] at h
    exact ih st' bf' ev h hinv
  · intro bf i st hi hb tx hil h44 hg e hev htr ih st' bf' ev h hinv
    rw [ilLoop_permanent evm limit il bf i st tx e hi hb hil
      (by simpa using h44) hg hev htr] at h
    exact ih st' bf' ev h hinv
  · intro bf i st hi hb tx hil h44 hg hev st' bf' ev h _
    rw [ilLoop_fatal evm limit il bf i st tx hi hb hil
      (by simpa using h44) hg hev] at h
    exact Option.noConfusion h
  · intro bf i st hi hb ih st' bf' ev h hinv
    rw [ilLoop_skip evm limit il bf i st (by simpa using hb)] at h
    exact ih st' bf' ev h hinv
  · intro bf i st hi st' bf' ev h hinv
    rw [ilLoop_terminal evm limit il bf i st hi] at h
    cases h
    exact hinv

theorem ilLoop_some_pos {S : Type} (evm : S → Tx → EvmResult S) (limit : Nat)
    (il : List (Option Tx)) (hevm : evmGasPos evm) :
    ∀ (bf : List Bool) (i : Nat) (st : PassState S),
    ∀ st' bf' ev, ilLoop evm limit il bf i st = some (st', bf', ev) →
      ∀ g ∈ commitGas ev, 0 < g := by
  refine ilLoop.induct evm limit il
    (fun bf i st => ∀ st' bf' ev, ilLoop evm limit il bf i st = some (st', bf', ev) →
      ∀ g ∈ commitGas ev, 0 < g)
    ?_ ?_ ?_ ?_ ?_ ?_ ?_ ?_ ?_ ?_
  · intro bf i st hi hb hil st' bf' ev h
    rw [ilLoop_undecodable evm limit il bf i st hi hb hil] at h
    exact Option.noConfusion h
  · intro bf i st hi hb tx hil h44 ih st' bf' ev h
    rw [ilLoop_blob evm limit il bf i st tx hi hb hil h44] at h
    exact ih st' bf' ev h
  · intro bf i st hi hb tx hil h44 hg ih st' bf' ev h
    rw [ilLoop_gas_guard evm limit il bf i st tx hi hb hil (by simpa using h44) hg] at h
    exact ih st' bf' ev h
  · intro bf i st hi hb tx hil h44 hg g ok lg s' hev hrec ih st' bf' ev h
    rw [ilLoop_success evm limit il bf i st tx g ok lg s' hi hb hil
      (by simpa using h44) hg hev, hrec] at h
    exact Option.noConfusion h
  · intro bf i st hi hb tx hil h44 hg g ok lg s' hev stf bff evs hrec ih st' bf' ev h
    rw [ilLoop_success evm limit il bf i st tx g ok lg s' hi hb hil
      (by simpa using h44) hg hev, hrec] at h
    simp only [Option.map_some'] at h
    cases h
    intro x hx
    simp only [commitGas, List.mem_cons] at hx
    cases hx with
    | inl hx => subst hx; exact hevm st.state tx x ok lg s' hev
    | inr hx => exact ih stf bff evs hrec x hx
  · intro bf i st hi hb tx hil h44 hg e hev htr ih st' bf' ev h
    rw [ilLoop_transient evm limit il bf i st tx e hi hb hil
      (by simpa using h44) hg hev htr] at h
    exact ih st' bf' ev h
  · intro bf i st hi hb tx hil h44 hg e hev htr ih st' bf' ev h
    rw [ilLoop_permanent evm limit il bf i st tx e hi hb hil
      (by simpa using h44) hg hev htr] at h
    exact ih st' bf' ev h
  · intro bf i st hi hb tx hil h44 hg hev st' bf' ev h
    rw [ilLoop_fatal evm limit il bf i st tx hi hb hil
      (by simpa using h44) hg hev] at h
    exact Option.noConfusion h
  · intro bf i st hi hb ih st' bf' ev h
    rw [ilLoop_skip evm limit il bf i st (by simpa using hb)] at h
    exact ih st' bf' ev h
  · intro bf i st hi st' bf' ev h
    rw [ilLoop_terminal evm limit il bf i st hi] at h
    cases h
    simp [commitGas]

theorem getD_replicate_false : ∀ (n j : Nat),
    (List.replicate n false).getD j false = false := by
  intro n
  induction n with
  | zero => intro j; simp [List.getD]
  | succ n ih =>
    intro j
    cases j with
    | zero => simp [List.replicate, List.getD_cons_zero]
    | succ j2 => simp [List.replicate, List.getD_cons_succ]

theorem ilLoop_all_false {S : Type} (evm : S → Tx → EvmResult S) (limit : Nat)
    (il : List (Option Tx)) (bf : List Bool)
    (hbf : ∀ j, bf.getD j false = false) :
    ∀ (k i : Nat) (st : PassState S), il.length - i ≤ k →
      ilLoop evm limit il bf i st = some (st, bf, []) := by
  intro k
  induction k with
  | zero =>
    intro i st h
    exact ilLoop_terminal evm limit il bf i st (by omega)
  | succ k ih =>
    intro i st h
    by_cases hi : i < il.length
    · rw [ilLoop_skip evm limit il bf i st (hbf i)]
      exact ih (i + 1) st (by omega)
    · exact ilLoop_terminal evm limit il bf i st hi

/-- C1: in the IL fixed-point pass, at a slot i that is still set and holds
a decoded transaction tx: an EIP-4844 entry is cleared and skipped without
execution; an entry with cumulative_gas_used + tx.gas_limit over the block
gas limit is cleared and skipped without execution; on successful EVM
execution the commit, the receipt, the miner fee (effective tip times
gas_used) and the signed transaction are accumulated exactly as one
successful mempool-loop iteration accumulates them, the slot is cleared
and the pass restarts at index 0; NonceTooHigh or LackOfFundForMaxFee
leaves the slot set (transient) and advances; any other transaction-level
error clears the slot (permanent reject) and advances; a non-transaction
EVM error aborts the attempt. -/
theorem c1_il_pass_branches {S : Type} (evm : S → Tx → EvmResult S) (limit : Nat)
    (il : List (Option Tx)) (bf : List Bool) (i : Nat) (st : PassState S)
    (tx : Tx) (e : TxError) (g : Nat) (ok : Bool) (lg : List Nat) (s' : S)
    (hi : i < il.length) (hb : bf.getD i false = true)
    (hil : il.getD i none = some tx) :
    (tx.is_eip4844 = true →
      ilLoop evm limit il bf i st = ilLoop evm limit il (bf.set i false) (i + 1) st) ∧
    (tx.is_eip4844 = false → st.cumulative_gas_used + tx.gas_limit > limit →
      ilLoop evm limit il bf i st = ilLoop evm limit il (bf.set i false) (i + 1) st) ∧
    (tx.is_eip4844 = false → ¬ st.cumulative_gas_used + tx.gas_limit > limit →
      evm st.state tx = .success g ok lg s' →
      ilLoop evm limit il bf i st =
        (ilLoop evm limit il (bf.set i false) 0 (ilApply st tx g ok lg s')).map
          (fun r => (r.1, r.2.1, Event.commit tx g :: r.2.2)) ∧
      mempoolStep limit st (MempoolStep.mk false tx (.success g ok lg s'))
        = .next (ilApply st tx g ok lg s') [.commit tx g]) ∧
    (tx.is_eip4844 = false → ¬ st.cumulative_gas_used + tx.gas_limit > limit →
      evm st.state tx = .txError e → (e = .NonceTooHigh ∨ e = .LackOfFundForMaxFee) →
      ilLoop evm limit il bf i st = ilLoop evm limit il bf (i + 1) st) ∧
    (tx.is_eip4844 = false → ¬ st.cumulative_gas_used + tx.gas_limit > limit →
      evm st.state tx = .txError e → ¬ (e = .NonceTooHigh ∨ e = .LackOfFundForMaxFee) →
      ilLoop evm limit il bf i st = ilLoop evm limit il (bf.set i false) (i + 1) st) ∧
    (tx.is_eip4844 = false → ¬ st.cumulative_gas_used + tx.gas_limit > limit →
      evm st.state tx = .fatal → ilLoop evm limit il bf i st = none) := by
  refine ⟨?_, ?_, ?_, ?_, ?_, ?_⟩
  · intro h44
    exact ilLoop_blob evm limit il bf i st tx hi hb hil h44
  · intro h44 hg
    exact ilLoop_gas_guard evm limit il bf i st tx hi hb hil h44 hg
  · intro h44 hg hev
    refine ⟨ilLoop_success evm limit il bf i st tx g ok lg s' hi hb hil h44 hg hev, ?_⟩
    rw [@mempoolStep_success S limit st (MempoolStep.mk false tx (.success g ok lg s'))
      g ok lg s' hg rfl (by simp [h44]) rfl]
    simp [ilApply, h44]
  · intro h44 hg hev htr
    exact ilLoop_transient evm limit il bf i st tx e hi hb hil h44 hg hev htr
  · intro h44 hg hev htr
    exact ilLoop_permanent evm limit il bf i st tx e hi hb hil h44 hg hev htr
  · intro h44 hg hev
    exact ilLoop_fatal evm limit il bf i st tx hi hb hil h44 hg hev

/-- Witness for C1: the success branch evaluated at txW on the one-entry
IL, with its hypotheses discharged at a concrete input. -/
theorem c1_il_pass_branches_witness :
    ilLoop evmW 30000000 [some txW] [true] 0 (initialState 0) =
      (ilLoop evmW 30000000 [some txW] ([true].set 0 false) 0
          (ilApply (initialState 0) txW 21000 true [] 1)).map
        (fun r => (r.1, r.2.1, Event.commit txW 21000 :: r.2.2)) ∧
    mempoolStep 30000000 (initialState 0)
        (MempoolStep.mk false txW (.success 21000 true [] 1))
      = .next (ilApply (initialState 0) txW 21000 true [] 1) [.commit txW 21000] :=
  (c1_il_pass_branches evmW 30000000 [some txW] [true] 0 (initialState 0)
    txW .other 21000 true [] 1 (by decide) rfl rfl).2.2.1 rfl (by decide) rfl

/-- C2: during the mempool packing loop and the IL pass, assuming every
successful EVM response reports gas_used at most the transaction's gas
limit, the accumulators keep cumulative_gas_used within the block gas
limit and sum_blob_gas_used within MAX_DATA_GAS_PER_BLOCK (the loops are
quantified over every trace and every starting state satisfying the
invariant, so the bound holds at every intermediate point); consequently
a sealed block's gas_used never exceeds its gas_limit. -/
theorem c2_gas_invariants {S : Type} (limit : Nat) :
    (∀ (trace : List (MempoolStep S)) (st st' : PassState S) (ev : List Event),
      (∀ s ∈ trace, stepGasBounded s = true) → gasInv limit st →
      mempoolLoop limit st trace = .done st' ev → gasInv limit st') ∧
    (∀ (evm : S → Tx → EvmResult S) (il : List (Option Tx)) (bf : List Bool)
      (i : Nat) (st st' : PassState S) (bf' : List Bool) (ev : List Event),
      evmGasBounded evm → gasInv limit st →
      ilLoop evm limit il bf i st = some (st', bf', ev) → gasInv limit st') ∧
    (∀ (trace : List (MempoolStep S)) (evm : S → Tx → EvmResult S)
      (il : Option (List (Option Tx))) (s0 : S) (bpf : Option Nat) (cr cr' : Nat)
      (b : BuiltBlock S),
      (∀ s ∈ trace, stepGasBounded s = true) → evmGasBounded evm →
      default_ethereum_payload limit trace evm il s0 bpf cr = .Better b cr' →
      b.gas_used ≤ b.gas_limit ∧ b.blob_gas_used ≤ MAX_DATA_GAS_PER_BLOCK) := by
  refine ⟨fun trace st st' ev hall hinv h =>
      mempoolLoop_done_gasInv trace st st' ev hall hinv h,
    fun evm il bf i st st' bf' ev hevm hinv h =>
      ilLoop_some_gasInv evm limit il hevm bf i st st' bf' ev h hinv, ?_⟩
  intro trace evm il s0 bpf cr cr' b hall hevm h
  simp only [default_ethereum_payload] at h
  cases hml : mempoolLoop limit (initialState s0) trace with
  | done st ev =>
    simp only [hml] at h
    cases hil : ilLoop evm limit (il.getD []) ((il.getD []).map Option.isSome) 0 st with
    | none =>
      simp only [hil] at h
      exact BuildOutcome.noConfusion h
    | some r =>
      obtain ⟨st', bf', ev'⟩ := r
      simp only [hil] at h
      by_cases hbp : is_better_payload bpf st'.total_fees = true
      · rw [if_pos hbp] at h
        cases h
        have hinv0 : gasInv limit (initialState s0) := ⟨Nat.zero_le _, Nat.zero_le _⟩
        have h1 := mempoolLoop_done_gasInv trace _ st ev hall hinv0 hml
        have h2 := ilLoop_some_gasInv evm limit _ hevm _ 0 st st' bf' ev' hil h1
        exact ⟨h2.1, h2.2⟩
      · rw [if_neg hbp] at h
        cases h
  | cancelled ev =>
    simp only [hml] at h
    exact BuildOutcome.noConfusion h
  | fatal ev =>
    simp only [hml] at h
    exact BuildOutcome.noConfusion h

/-- Witness for C2: the sealed-block bound evaluated on the empty build,
with the trace and oracle hypotheses discharged concretely. -/
theorem c2_gas_invariants_witness :
    (sealBlock 30000000 (initialState (0 : Nat))).gas_used ≤
      (sealBlock 30000000 (initialState (0 : Nat))).gas_limit ∧
    (sealBlock 30000000 (initialState (0 : Nat))).blob_gas_used ≤
      MAX_DATA_GAS_PER_BLOCK := by
  have h1 : ∀ s ∈ ([] : List (MempoolStep Nat)), stepGasBounded s = true := by simp
  have h2 : evmGasBounded evmRejectW := by
    intro s tx g ok lg s2 h
    simp [evmRejectW] at h
  have h3 : default_ethereum_payload 30000000 ([] : List (MempoolStep Nat))
      evmRejectW none 0 none 7 = .Better (sealBlock 30000000 (initialState 0)) 7 := by
    have hter : ilLoop evmRejectW 30000000 [] [] 0 (initialState (0 : Nat))
        = some (initialState 0, [], []) :=
      ilLoop_terminal _ _ _ _ _ _ (by simp)
    simp only [default_ethereum_payload, mempoolLoop, Option.getD_none, List.map_nil]
    rw [hter]
    simp [is_better_payload]
  exact (c2_gas_invariants 30000000).2.2 [] evmRejectW none 0 none 7 7 _ h1 h2 h3

/-- C4: in the mempool packing loop, when the guards pass and the EVM
reports a transaction-level error: NonceTooLow skips the transaction with
no mark_invalid call and no state change; any other transaction-level
error calls mark_invalid with Consensus(TxTypeNotSupported) and continues;
a non-transaction EVM error aborts the whole loop. -/
theorem c4_mempool_error_handling {S : Type} (limit : Nat) (st : PassState S)
    (s : MempoolStep S) (e : TxError) (rest : List (MempoolStep S))
    (h1 : ¬ st.cumulative_gas_used + s.tx.gas_limit > limit)
    (h2 : s.cancelled = false)
    (h3 : (s.tx.is_eip4844 &&
      decide (st.sum_blob_gas_used + s.tx.blob_gas > MAX_DATA_GAS_PER_BLOCK)) = false) :
    (s.evmResult = .txError .NonceTooLow → mempoolStep limit st s = .next st []) ∧
    (s.evmResult = .txError e → e ≠ .NonceTooLow →
      mempoolStep limit st s = .next st [.markInvalid s.tx .ConsensusTxTypeNotSupported]) ∧
    (s.evmResult = .fatal → mempoolStep limit st s = .fatal ∧
      mempoolLoop limit st (s :: rest) = .fatal []) := by
  refine ⟨fun hev => mempoolStep_nonce_too_low h1 h2 h3 hev,
    fun hev hne => mempoolStep_invalid h1 h2 h3 hev hne,
    fun hev => ⟨mempoolStep_evm_fatal h1 h2 h3 hev, ?_⟩⟩
  simp only [mempoolLoop]
  rw [mempoolStep_evm_fatal h1 h2 h3 hev]

/-- Witness for C4: the mark_invalid branch evaluated at a concrete
rejected transaction. -/
theorem c4_mempool_error_handling_witness :
    mempoolStep 30000000 (initialState (0 : Nat)) stepRejectW
      = .next (initialState 0) [.markInvalid txW .ConsensusTxTypeNotSupported] :=
  (c4_mempool_error_handling 30000000 (initialState 0) stepRejectW .other []
    (by decide) rfl rfl).2.1 rfl (by decide)

/-- Counterexample to C5 as stated: cancellation is signalled while the
yielded transaction fails the gas-limit guard; the loop marks the
transaction invalid and runs on to completion instead of returning
Cancelled, so cancellation is not polled before the gas-limit guard and a
mark_invalid call does happen while cancellation is signalled. -/
theorem c5_counterexample :
    stepBig.cancelled = true ∧
    mempoolLoop 30000000 (initialState (0 : Nat)) [stepBig]
      = .done (initialState 0) [.markInvalid txBig (.ExceedsGasLimit 31000000 30000000)] ∧
    default_ethereum_payload 30000000 [stepBig] evmRejectW none 0 none 7
      = .Better (sealBlock 30000000 (initialState 0)) 7 := by
  have hml : mempoolLoop 30000000 (initialState (0 : Nat)) [stepBig]
      = .done (initialState 0) [.markInvalid txBig (.ExceedsGasLimit 31000000 30000000)] := rfl
  have hter : ilLoop evmRejectW 30000000 [] [] 0 (initialState (0 : Nat))
      = some (initialState 0, [], []) :=
    ilLoop_terminal _ _ _ _ _ _ (by simp)
  have hd : default_ethereum_payload 30000000 [stepBig] evmRejectW none 0 none 7
      = .Better (sealBlock 30000000 (initialState 0)) 7 := by
    simp only [default_ethereum_payload, hml, Option.getD_none, List.map_nil]
    rw [hter]
    simp [is_better_payload]
  exact ⟨rfl, hml, hd⟩

/-- C5 amended: cancellation is polled at every mempool iteration, but
after the gas-limit guard and before the blob-data guard and EVM
execution: when cancellation is signalled and the yielded transaction
passes the gas-limit guard, the attempt returns Cancelled immediately with
no mark_invalid call and no state change for that transaction; a yielded
transaction that fails the gas-limit guard is marked invalid and skipped
even while cancellation is signalled. -/
theorem c5_cancellation_semantics {S : Type} (limit : Nat) (st : PassState S)
    (s : MempoolStep S) (rest : List (MempoolStep S)) (s0 : S)
    (evm : S → Tx → EvmResult S) (il : Option (List (Option Tx)))
    (bpf : Option Nat) (cr : Nat)
    (hc : s.cancelled = true) :
    (¬ st.cumulative_gas_used + s.tx.gas_limit > limit →
      mempoolStep limit st s = .cancelled ∧
      mempoolLoop limit st (s :: rest) = .cancelled []) ∧
    (st.cumulative_gas_used + s.tx.gas_limit > limit →
      mempoolStep limit st s =
        .next st [.markInvalid s.tx (.ExceedsGasLimit s.tx.gas_limit limit)]) ∧
    (¬ (initialState s0).cumulative_gas_used + s.tx.gas_limit > limit →
      default_ethereum_payload limit (s :: rest) evm il s0 bpf cr = .Cancelled) := by
  refine ⟨?_, ?_, ?_⟩
  · intro h1
    refine ⟨mempoolStep_cancel h1 hc, ?_⟩
    simp only [mempoolLoop]
    rw [mempoolStep_cancel h1 hc]
  · intro h1
    exact mempoolStep_gas_reject h1
  · intro h1
    simp only [default_ethereum_payload, mempoolLoop]
    rw [mempoolStep_cancel h1 hc]

/-- Witness for the amended C5: a cancelled iteration at a transaction
passing the gas-limit guard returns Cancelled. -/
theorem c5_cancellation_semantics_witness :
    mempoolStep 30000000 (initialState (0 : Nat)) stepCancelW = .cancelled ∧
    default_ethereum_payload 30000000 [stepCancelW] evmRejectW none 0 none 7
      = .Cancelled := by
  have h := c5_cancellation_semantics 30000000 (initialState (0 : Nat)) stepCancelW []
    0 evmRejectW none none 7 rfl
  exact ⟨(h.1 (by decide)).1, h.2.2 (by decide)⟩

/-- C6: after packing and the IL pass, the attempt is better exactly when
total_fees strictly exceeds the best prior payload's fees; otherwise,
including exact equality, the function returns Aborted carrying the fees
and the cached-reads accumulator, and no block is sealed. -/
theorem c6_revenue_gate {S : Type} (limit : Nat) (trace : List (MempoolStep S))
    (evm : S → Tx → EvmResult S) (il : Option (List (Option Tx))) (s0 : S)
    (f cr : Nat) (st st' : PassState S) (bf' : List Bool) (ev ev' : List Event)
    (hml : mempoolLoop limit (initialState s0) trace = .done st ev)
    (hil : ilLoop evm limit (il.getD []) ((il.getD []).map Option.isSome) 0 st
      = some (st', bf', ev')) :
    (default_ethereum_payload limit trace evm il s0 (some f) cr
        = .Better (sealBlock limit st') cr ↔ f < st'.total_fees) ∧
    (¬ f < st'.total_fees →
      default_ethereum_payload limit trace evm il s0 (some f) cr
        = .Aborted st'.total_fees cr) := by
  have hd : default_ethereum_payload limit trace evm il s0 (some f) cr
      = if is_better_payload (some f) st'.total_fees = true
        then .Better (sealBlock limit st') cr
        else .Aborted st'.total_fees cr := by
    simp only [default_ethereum_payload, hml, hil]
  constructor
  · constructor
    · intro h
      by_contra hn
      rw [hd, if_neg (by simp [is_better_payload, hn])] at h
      exact BuildOutcome.noConfusion h
    · intro h
      rw [hd, if_pos (by simp [is_better_payload, h])]
  · intro h
    rw [hd, if_neg (by simp [is_better_payload, h])]

/-- Witness for C6: a build whose total fees equal the best prior fees is
Aborted, returning the fees and the cached-reads accumulator. -/
theorem c6_revenue_gate_witness :
    default_ethereum_payload 30000000 ([] : List (MempoolStep Nat)) evmRejectW
      none 0 (some 0) 7 = .Aborted 0 7 := by
  have hml : mempoolLoop 30000000 (initialState (0 : Nat)) []
      = .done (initialState 0) [] := rfl
  have hil : ilLoop evmRejectW 30000000 [] [] 0 (initialState (0 : Nat))
      = some (initialState 0, [], []) :=
    ilLoop_terminal _ _ _ _ _ _ (by simp)
  exact (c6_revenue_gate 30000000 [] evmRejectW none 0 0 7 (initialState 0)
    (initialState 0) [] [] [] hml hil).2 (by decide)

/-- C3 (under the unified flat receipts container intended by the source;
the source's IL pass pushes Some(Receipt) into the vector built from bare
Receipt values, a slip): the receipts of the mempool pass followed by the
IL pass form one flat sequence whose cumulative_gas_used column equals the
running prefix sums of the committed transactions' gas_used, continues
the same running sum from the mempool pass into the IL pass, and, when
every committed gas_used is positive, is strictly increasing. -/
theorem c3_receipts_running_sum {S : Type} (limit : Nat)
    (trace : List (MempoolStep S)) (evm : S → Tx → EvmResult S)
    (il : List (Option Tx)) (s0 : S)
    (st st' : PassState S) (bf' : List Bool) (ev ev' : List Event)
    (hpos : ∀ s ∈ trace, stepGasPos s = true) (hevm : evmGasPos evm)
    (hml : mempoolLoop limit (initialState s0) trace = .done st ev)
    (hil : ilLoop evm limit il (il.map Option.isSome) 0 st = some (st', bf', ev')) :
    cums st.receipts = scanSums 0 (commitGas ev) ∧
    cums st'.receipts =
      cums st.receipts ++ scanSums st.cumulative_gas_used (commitGas ev') ∧
    cums st'.receipts = scanSums 0 (commitGas ev ++ commitGas ev') ∧
    st'.cumulative_gas_used = (commitGas ev ++ commitGas ev').sum ∧
    List.Chain' (· < ·) (cums st'.receipts) := by
  obtain ⟨a1, a2, -, -, -⟩ := mempoolLoop_done_spec trace _ st ev hml
  have a1' : cums st.receipts = scanSums 0 (commitGas ev) := by
    simpa [initialState, cums] using a1
  have a2' : st.cumulative_gas_used = (commitGas ev).sum := by
    simpa [initialState] using a2
  obtain ⟨b1, b2, -, -, -, -, -⟩ := ilLoop_some_spec evm limit il _ 0 st st' bf' ev' hil
  have c3 : cums st'.receipts = scanSums 0 (commitGas ev ++ commitGas ev') := by
    rw [b1, a1', a2', scanSums_append]
    simp
  have c4 : st'.cumulative_gas_used = (commitGas ev ++ commitGas ev').sum := by
    rw [List.sum_append]
    omega
  refine ⟨a1', b1, c3, c4, ?_⟩
  rw [c3]
  apply chain_lt_scanSums_tail
  intro g hg
  rw [List.mem_append] at hg
  cases hg with
  | inl h => exact mempoolLoop_done_pos trace _ st ev hpos hml g h
  | inr h => exact ilLoop_some_pos evm limit il hevm _ 0 st st' bf' ev' hil g h

/-- Witness for C3: one transaction committed through the IL pass on top
of an empty mempool pass, evaluated concretely. -/
theorem c3_receipts_running_sum_witness :
    cums (ilApply (initialState (0 : Nat)) txW 21000 true [] 1).receipts
      = scanSums 0 (commitGas [] ++ commitGas [Event.commit txW 21000]) ∧
    List.Chain' (· < ·)
      (cums (ilApply (initialState (0 : Nat)) txW 21000 true [] 1).receipts) := by
  have hml : mempoolLoop 30000000 (initialState (0 : Nat)) []
      = .done (initialState 0) [] := rfl
  have hpos : ∀ s ∈ ([] : List (MempoolStep Nat)), stepGasPos s = true := by simp
  have hevm : evmGasPos evmW := by
    intro s tx g ok lg s2 h
    simp only [evmW, EvmResult.success.injEq] at h
    omega
  have hil : ilLoop evmW 30000000 [some txW] ([some txW].map Option.isSome) 0
        (initialState 0)
      = some (ilApply (initialState 0) txW 21000 true [] 1, [false],
          [.commit txW 21000]) := by
    have e1 : ilLoop evmW 30000000 [some txW] [false] 1
          (ilApply (initialState (0 : Nat)) txW 21000 true [] 1)
        = some (ilApply (initialState 0) txW 21000 true [] 1, [false], []) :=
      ilLoop_terminal _ _ _ _ _ _ (by simp)
    have e2 : ilLoop evmW 30000000 [some txW] [false] 0
          (ilApply (initialState (0 : Nat)) txW 21000 true [] 1)
        = some (ilApply (initialState 0) txW 21000 true [] 1, [false], []) := by
      rw [ilLoop_skip _ _ _ _ _ _ (by decide)]
      exact e1
    have e3 := ilLoop_success evmW 30000000 [some txW] [true] 0 (initialState 0)
      txW 21000 true [] 1 (by decide) rfl rfl rfl (by decide) rfl
    rw [show ([some txW].map Option.isSome) = [true] from rfl, e3,
      show ([true].set 0 false) = [false] from rfl, e2]
    rfl
  have H := c3_receipts_running_sum 30000000 [] evmW [some txW] 0 (initialState 0)
    (ilApply (initialState 0) txW 21000 true [] 1) [false] [] [Event.commit txW 21000]
    hpos hevm hml hil
  exact ⟨H.2.2.1, H.2.2.2.2⟩

/-- C7: the IL bitfield is pointwise non-increasing across the whole pass:
any slot read true in the final bitfield was already true initially, so a
slot initialised false stays false and no step sets a slot from false to
true. -/
theorem c7_bitfield_monotone {S : Type} (evm : S → Tx → EvmResult S) (limit : Nat)
    (il : List (Option Tx)) (bf : List Bool) (i : Nat) (st st' : PassState S)
    (bf' : List Bool) (ev : List Event)
    (h : ilLoop evm limit il bf i st = some (st', bf', ev)) :
    ∀ j, bf'.getD j false = true → bf.getD j false = true :=
  (ilLoop_some_spec evm limit il bf i st st' bf' ev h).2.2.2.2.2.2

/-- Witness for C7: a transient IL entry leaves its slot set across the
whole pass; the theorem applied to that concrete run yields that slot 0 of
the initial bitfield is set. -/
theorem c7_bitfield_monotone_witness : [true].getD 0 false = true := by
  have e1 : ilLoop evmTransientW 30000000 [some txW] [true] 1 (initialState (0 : Nat))
      = some (initialState 0, [true], []) :=
    ilLoop_terminal _ _ _ _ _ _ (by simp)
  have e2 : ilLoop evmTransientW 30000000 [some txW] [true] 0 (initialState (0 : Nat))
      = some (initialState 0, [true], []) := by
    rw [ilLoop_transient evmTransientW 30000000 [some txW] [true] 0 (initialState 0)
      txW .NonceTooHigh (by decide) rfl rfl rfl (by decide) rfl (Or.inl rfl)]
    exact e1
  exact c7_bitfield_monotone evmTransientW 30000000 [some txW] [true] 0 (initialState 0)
    (initialState 0) [true] [] e2 0 rfl

/-- C8: the IL fixed-point loop terminates: running the loop body as a
plain iteration with the quadratic budget (n + 1) * trueCount + (n - i) + 1
never exhausts the budget and computes the loop's result, because every
iteration either advances the index or strictly decreases the number of
true bits. -/
theorem c8_il_pass_terminates {S : Type} (evm : S → Tx → EvmResult S) (limit : Nat)
    (il : List (Option Tx)) (bf : List Bool) (i : Nat) (st : PassState S) :
    ilLoopFuel evm limit il
        ((il.length + 1) * trueCount bf + (il.length - i) + 1) bf i st
      = some (ilLoop evm limit il bf i st) :=
  ilLoopFuel_eq_ilLoop evm limit il _ bf i st (Nat.lt_succ_self _)

/-- C9: with an empty mempool, building with an IL of n undecodable (none)
slots produces the same outcome as building with an empty IL; an absent IL
behaves identically to an empty one for every trace; and the IL pass over
an all-none IL performs no state change and adds no receipts, fees,
executed transactions or commits. -/
theorem c9_empty_il_equivalence {S : Type} (limit : Nat) (evm : S → Tx → EvmResult S)
    (s0 : S) (bpf : Option Nat) (cr : Nat) (n : Nat) :
    default_ethereum_payload limit ([] : List (MempoolStep S)) evm
        (some (List.replicate n (none : Option Tx))) s0 bpf cr
      = default_ethereum_payload limit [] evm (some []) s0 bpf cr ∧
    (∀ trace : List (MempoolStep S),
      default_ethereum_payload limit trace evm none s0 bpf cr
        = default_ethereum_payload limit trace evm (some []) s0 bpf cr) ∧
    (∀ st : PassState S,
      ilLoop evm limit (List.replicate n none)
        ((List.replicate n (none : Option Tx)).map Option.isSome) 0 st
        = some (st, List.replicate n false, [])) := by
  have hall : ∀ st : PassState S,
      ilLoop evm limit (List.replicate n none)
        ((List.replicate n (none : Option Tx)).map Option.isSome) 0 st
        = some (st, List.replicate n false, []) := by
    intro st
    rw [show ((List.replicate n (none : Option Tx)).map Option.isSome)
      = List.replicate n false by simp [List.map_replicate]]
    exact ilLoop_all_false evm limit _ _ (fun j => getD_replicate_false n j)
      n 0 st (by simp)
  refine ⟨?_, fun trace => rfl, hall⟩
  simp only [default_ethereum_payload, mempoolLoop, Option.getD_some]
  rw [hall (initialState s0),
    show (([] : List (Option Tx)).map Option.isSome) = [] from rfl,
    ilLoop_terminal evm limit [] [] 0 (initialState s0) (by simp)]

/-- C10: every non-committing iteration is state-neutral apart from
iterator side effects and the bitfield: a mempool iteration whose event
list records no commit returns the accumulators unchanged, a run of the
mempool loop with no recorded commit leaves the accumulators unchanged,
and so does a run of the IL pass with no recorded commit (covering the
gas-limit guard, the blob guard, NonceTooLow skips, other transaction
errors, IL blob rejection, the IL gas guard, and IL transient and
permanent rejects). -/
theorem c10_reject_iterations_frame {S : Type} (limit : Nat) :
    (∀ (st st' : PassState S) (s : MempoolStep S) (ev : List Event),
      mempoolStep limit st s = .next st' ev → commitGas ev = [] → st' = st) ∧
    (∀ (trace : List (MempoolStep S)) (st st' : PassState S) (ev : List Event),
      mempoolLoop limit st trace = .done st' ev → commitGas ev = [] → st' = st) ∧
    (∀ (evm : S → Tx → EvmResult S) (il : List (Option Tx)) (bf : List Bool)
      (i : Nat) (st st' : PassState S) (bf' : List Bool) (ev : List Event),
      ilLoop evm limit il bf i st = some (st', bf', ev) → commitGas ev = [] → st' = st) :=
  ⟨fun _ _ _ _ h hc => (mempoolStep_next_spec h).2.2.2.2 hc,
   fun trace st st' ev h hc => (mempoolLoop_done_spec trace st st' ev h).2.2.2.2 hc,
   fun evm il bf i st st' bf' ev h hc =>
     (ilLoop_some_spec evm limit il bf i st st' bf' ev h).2.2.2.2.2.1 hc⟩

/-- Witness for C10: a mark_invalid iteration leaves the accumulators
unchanged. -/
theorem c10_reject_iterations_frame_witness : initialState (0 : Nat) = initialState 0 :=
  (c10_reject_iterations_frame 30000000).1 (initialState 0) (initialState 0)
    stepRejectW [.markInvalid txW .ConsensusTxTypeNotSupported] rfl rfl

end RethPayload
